import Mathlib

/-!
Verification of the content-filtering and navigation-extraction core of the
spider_craw repository (src/content_filter.py and
src/enhanced_navigation_extractor.py).

The embedding is shallow: Python functions become Lean functions over an
explicit DOM tree type (`HNode`).  The external libraries the code calls
(BeautifulSoup, urllib.parse, re) are modelled at their observable behaviour:

* `urlsplitE` / `urljoinE` model `urllib.parse.urlsplit` / `urljoin`
  (including the ValueError raised on a bracket-unbalanced netloc, which the
  repository code does not catch at its `urljoin` call site); `params`
  splitting on ";" is not modelled (none of the analysed behaviour uses it).
* BeautifulSoup parsing is modelled by `parseHtml`, a tolerant tokenizer and
  tree builder; `str(soup)` is modelled by `serializeForest`.  CSS selection
  (soupsieve) is modelled by the `Sel` type, which covers the element-local
  selector forms appearing in the filter catalog and the navigation selector
  list (tag, class, id, tag.class, [attr="v"], tag[attr="v"], [attr*="v"]).
* `re.compile(keyword, re.IGNORECASE)` is modelled as case-insensitive
  substring matching (exact for literal patterns), and its failure on a
  syntactically invalid pattern is modelled by `regexOk` (unbalanced
  parentheses), giving the fallible step that the outer try/except of
  `filter_html` absorbs.

Python string primitives (lower, strip, split, join, replace, substring
test) are re-implemented over `List Char` by structural recursion so that
every definition evaluates inside the kernel.
-/

set_option maxRecDepth 20000
set_option maxHeartbeats 3200000

/-! ## String primitives (models of the Python built-ins used by the code) -/

/-- Boolean prefix test on character lists. -/
def listPre : List Char → List Char → Bool
  | [], _ => true
  | _ :: _, [] => false
  | a :: as, b :: bs => a == b && listPre as bs

/-- Substring test on character lists; models the Python `in` operator on
strings (`pat in l`). -/
def listSub : List Char → List Char → Bool
  | l, pat =>
    if listPre pat l then true
    else
      match l with
      | [] => false
      | _ :: xs => listSub xs pat

/-- Rebuild a `String` from characters. -/
def ofChars (l : List Char) : String := ⟨l⟩

/-- Python `pat in s` (substring containment). -/
def strIn (pat s : String) : Bool := listSub s.data pat.data

/-- Python `s.lower()` (ASCII case folding; the keywords and URLs analysed
here are ASCII or CJK, on which Python lowercasing agrees). -/
def strLower (s : String) : String := ofChars (s.data.map Char.toLower)

/-- Whitespace test matching Python `str.strip` for the usual blanks. -/
def isBlankChar (c : Char) : Bool := c == ' ' || c == '\t' || c == '\n' || c == '\r'

/-- Python `s.strip()`. -/
def strStrip (s : String) : String :=
  ofChars (((s.data.dropWhile isBlankChar).reverse.dropWhile isBlankChar).reverse)

/-- Split a character list at every occurrence of the single character `c`;
models Python `s.split(c)` for a one-character separator. -/
def splitChar (c : Char) : List Char → List (List Char)
  | [] => [[]]
  | x :: xs =>
    let r := splitChar c xs
    if x == c then [] :: r
    else
      match r with
      | [] => [[x]]
      | g :: gs => (x :: g) :: gs

/-- Python `sep.join(parts)`. -/
def strJoin (sep : String) : List String → String
  | [] => ""
  | [x] => x
  | x :: y :: rest => x ++ sep ++ strJoin sep (y :: rest)

/-- Replacement of every non-overlapping occurrence of `old` (left to right);
models Python `s.replace(old, new)`.  Fuelled to stay structural. -/
def listReplace : Nat → List Char → List Char → List Char → List Char
  | 0, l, _, _ => l
  | fuel + 1, l, old, new =>
    if old ≠ [] && listPre old l then
      new ++ listReplace fuel (l.drop old.length) old new
    else
      match l with
      | [] => []
      | c :: cs => c :: listReplace fuel cs old new

/-- Python `s.replace(old, new)`. -/
def strReplace (s old new : String) : String :=
  ofChars (listReplace (s.data.length + 1) s.data old.data new.data)

/-- Split at the first occurrence of `c`, dropping the separator. -/
def splitFirst (c : Char) : List Char → Option (List Char × List Char)
  | [] => none
  | x :: xs =>
    if x == c then some ([], xs)
    else (splitFirst c xs).map (fun p => (x :: p.1, p.2))

example : strIn "lo w" "hello world" = true := by decide
example : strIn ".pdf" "https://x/a.html" = false := by decide
example : strLower "AbC" = "abc" := by decide
example : strStrip "  hi  " = "hi" := by decide
example : (splitChar ',' "a,b,".data).map ofChars = ["a", "b", ""] := by decide
example : strReplace "abcabc" "bc" "" = "aa" := by decide
example : strJoin "\n" ["a", "b"] = "a\nb" := by decide

/-! ## Model of urllib.parse: urlsplit, urlunsplit, urljoin

These model the CPython implementations.  `urlsplitE` raises (returns
`.error`) exactly when CPython raises `ValueError("Invalid IPv6 URL")`:
when the netloc contains `[` without `]` or vice versa. -/

deriving instance DecidableEq for Except

structure UrlParts where
  scheme : String
  netloc : String
  path : String
  query : String
  fragment : String
deriving Repr, DecidableEq

/-- Characters allowed in a URL scheme after the leading letter. -/
def schemeChar (c : Char) : Bool := c.isAlphanum || c == '+' || c == '-' || c == '.'

/-- Model of `urllib.parse.urlsplit(url, scheme=default)`. -/
def urlsplitE (url : String) (default : String) : Except String UrlParts :=
  let u := url.data
  let schemeSplit :=
    match splitFirst ':' u with
    | some (pre, rest) =>
      if pre ≠ [] && (pre.headD ' ').isAlpha && pre.all schemeChar then
        (ofChars (pre.map Char.toLower), rest)
      else (default, u)
    | none => (default, u)
  let scheme := schemeSplit.1
  let u1 := schemeSplit.2
  let netlocSplit :=
    match u1 with
    | '/' :: '/' :: rest =>
      let nl := rest.takeWhile (fun c => c ≠ '/' && c ≠ '?' && c ≠ '#')
      (nl, rest.dropWhile (fun c => c ≠ '/' && c ≠ '?' && c ≠ '#'))
    | _ => ([], u1)
  let netloc := netlocSplit.1
  let u2 := netlocSplit.2
  if (netloc.contains '[' && !netloc.contains ']') ||
     (netloc.contains ']' && !netloc.contains '[') then
    .error "Invalid IPv6 URL"
  else
    let fragSplit :=
      match splitFirst '#' u2 with
      | some (a, b) => (a, b)
      | none => (u2, [])
    let querySplit :=
      match splitFirst '?' fragSplit.1 with
      | some (a, b) => (a, b)
      | none => (fragSplit.1, [])
    .ok ⟨scheme, ofChars netloc, ofChars querySplit.1, ofChars querySplit.2,
         ofChars fragSplit.2⟩

/-- Model of `urllib.parse.urlunsplit`. -/
def urlunsplit (p : UrlParts) : String :=
  let url0 :=
    if p.netloc ≠ "" || p.path.data.take 2 = ['/', '/'] then
      let pth := if p.path ≠ "" && ¬ listPre ['/'] p.path.data then "/" ++ p.path else p.path
      "//" ++ p.netloc ++ pth
    else p.path
  let url1 := if p.scheme ≠ "" then p.scheme ++ ":" ++ url0 else url0
  let url2 := if p.query ≠ "" then url1 ++ "?" ++ p.query else url1
  if p.fragment ≠ "" then url2 ++ "#" ++ p.fragment else url2

/-- Schemes for which relative resolution applies (CPython uses_relative). -/
def usesRelative : List String :=
  ["", "ftp", "http", "gopher", "nntp", "imap", "wais", "file", "https",
   "shttp", "mms", "prospero", "rtsp", "rtspu", "sftp", "svn", "svn+ssh",
   "ws", "wss"]

/-- Schemes carrying a network location (CPython uses_netloc). -/
def usesNetloc : List String :=
  ["", "ftp", "http", "gopher", "nntp", "telnet", "imap", "wais", "file",
   "mms", "https", "shttp", "snews", "prospero", "rtsp", "rtspu", "rsync",
   "svn", "svn+ssh", "sftp", "nfs", "git", "git+ssh", "ws", "wss"]

/-- Keep the first and last segments, drop empty segments strictly between
them; models `segments[1:-1] = filter(None, segments[1:-1])`. -/
def dropEmptyMiddle (l : List (List Char)) : List (List Char) :=
  match l with
  | [] => []
  | [x] => [x]
  | x :: y :: rest =>
    let tailPart := y :: rest
    x :: (tailPart.dropLast.filter (fun s => s ≠ []) ++ [tailPart.getLastD []])

/-- Dot-segment resolution loop of CPython urljoin. -/
def resolveSegments (segs : List (List Char)) : List (List Char) :=
  let resolved := segs.foldl
    (fun acc seg =>
      if seg = ['.', '.'] then acc.dropLast
      else if seg = ['.'] then acc
      else acc ++ [seg]) []
  if segs.getLastD [] = ['.'] || segs.getLastD [] = ['.', '.'] then
    resolved ++ [[]]
  else resolved

/-- Model of `urllib.parse.urljoin(base, url)`.  Returns `.error` when the
underlying urlsplit raises ValueError (an invalid IPv6 netloc in either
argument); the repository calls this without a try/except. -/
def urljoinE (base url : String) : Except String String :=
  if base = "" then .ok url
  else if url = "" then .ok base
  else do
    let b ← urlsplitE base ""
    let u ← urlsplitE url b.scheme
    if u.scheme ≠ b.scheme || ¬ usesRelative.contains u.scheme then
      .ok url
    else if usesNetloc.contains u.scheme && u.netloc ≠ "" then
      .ok (urlunsplit u)
    else
      let netloc := if usesNetloc.contains u.scheme then b.netloc else u.netloc
      if u.path = "" then
        .ok (urlunsplit ⟨u.scheme, netloc, b.path,
              (if u.query = "" then b.query else u.query), u.fragment⟩)
      else
        let bparts0 := splitChar '/' b.path.data
        let bparts := if bparts0.getLastD [] ≠ [] then bparts0.dropLast else bparts0
        let segments :=
          if listPre ['/'] u.path.data then splitChar '/' u.path.data
          else dropEmptyMiddle (bparts ++ splitChar '/' u.path.data)
        let joined := strJoin "/" ((resolveSegments segments).map ofChars)
        let finalPath := if joined = "" then "/" else joined
        .ok (urlunsplit ⟨u.scheme, netloc, finalPath, u.query, u.fragment⟩)

example : urlsplitE "https://docs.example.com/welcome" "" =
    .ok ⟨"https", "docs.example.com", "/welcome", "", ""⟩ := by decide
example : urlsplitE "http://[x" "" = .error "Invalid IPv6 URL" := by decide
example : urljoinE "https://docs.example.com/welcome" "/get-started" =
    .ok "https://docs.example.com/get-started" := by decide
example : urljoinE "https://docs.example.com/welcome" "models" =
    .ok "https://docs.example.com/models" := by decide
example : urljoinE "https://a.com/x/y" "../z" = .ok "https://a.com/z" := by decide
example : urljoinE "https://a.com/x" "https://b.com/y" = .ok "https://b.com/y" := by decide
example : urljoinE "https://example.com/" "http://[x" = .error "Invalid IPv6 URL" := by decide

/-! ## DOM model

An HTML document is modelled by a forest of `HNode` trees, the shape
BeautifulSoup produces.  Attribute values are kept raw; the multi-valued
`class` attribute is recovered by `classesOf` (BeautifulSoup splits the
class attribute on whitespace). -/

structure ElemData where
  name : String
  attrs : List (String × String)
deriving Repr, DecidableEq

inductive HNode where
  | elem : ElemData → List HNode → HNode
  | text : String → HNode

/-- Attribute lookup; models `element.get(a)`. -/
def getAttr (e : ElemData) (a : String) : Option String :=
  (e.attrs.find? (fun p => p.1 == a)).map (fun p => p.2)

/-- Split on whitespace runs, dropping empties; models how BeautifulSoup
turns the class attribute into a list. -/
def splitBlank (l : List Char) : List (List Char) :=
  (splitChar ' ' l).filter (fun g => g ≠ [])

/-- The class list of an element; models `element.get("class", [])`. -/
def classesOf (e : ElemData) : List String :=
  ((splitBlank ((getAttr e "class").getD "").data).map ofChars)

/-- Name of a node (empty for text nodes). -/
def nameOf : HNode → String
  | .elem e _ => e.name
  | .text _ => ""

mutual
/-- Concatenation of all text descendants; models `element.get_text()`. -/
def getTextRaw : HNode → String
  | .text s => s
  | .elem _ cs => getTextRawF cs
def getTextRawF : List HNode → String
  | [] => ""
  | n :: ns => getTextRaw n ++ getTextRawF ns
end

mutual
/-- Concatenation of the individually stripped text descendants; models
`element.get_text(strip=True)` (each string stripped, joined with ""). -/
def getTextStrip : HNode → String
  | .text s => strStrip s
  | .elem _ cs => getTextStripF cs
def getTextStripF : List HNode → String
  | [] => ""
  | n :: ns => getTextStrip n ++ getTextStripF ns
end

mutual
/-- All element nodes of a tree in document (pre)order, each with its
ancestor chain (nearest ancestor first). -/
def nodeElems (anc : List HNode) : HNode → List (HNode × List HNode)
  | .text _ => []
  | .elem e cs => (.elem e cs, anc) :: forestElems (.elem e cs :: anc) cs
def forestElems (anc : List HNode) : List HNode → List (HNode × List HNode)
  | [] => []
  | n :: ns => nodeElems anc n ++ forestElems anc ns
end

/-! ## CSS selector model (soupsieve, restricted to the element-local
selector forms used by the repository) -/

inductive Sel where
  | tagSel (t : String)
  | clsSel (c : String)
  | idSel (i : String)
  | tagCls (t c : String)
  | tagAttr (t a v : String)
  | attrEq (a v : String)
  | attrSub (a v : String)
deriving Repr, DecidableEq

/-- Whether an element matches a selector. -/
def matchesSel : Sel → ElemData → Bool
  | .tagSel t, e => e.name == t
  | .clsSel c, e => (classesOf e).contains c
  | .idSel i, e => getAttr e "id" == some i
  | .tagCls t c, e => e.name == t && (classesOf e).contains c
  | .tagAttr t a v, e => e.name == t && getAttr e a == some v
  | .attrEq a v, e => getAttr e a == some v
  | .attrSub a v, e =>
    v ≠ "" &&
      match getAttr e a with
      | some s => listSub s.data v.data
      | none => false

/-- Whether a node is an element matching a selector. -/
def matchesNode (s : Sel) : HNode → Bool
  | .elem e _ => matchesSel s e
  | .text _ => false

/-- Model of `soup.select(s)`: all matching elements in document order,
paired with their ancestor chains. -/
def selectWithChain (s : Sel) (doc : List HNode) : List (HNode × List HNode) :=
  (forestElems [] doc).filter (fun p => matchesNode s p.1)

/-! ## Serializer (model of `str(soup)`) -/

def serializeAttrs : List (String × String) → String
  | [] => ""
  | (a, v) :: rest => " " ++ a ++ "=\"" ++ v ++ "\"" ++ serializeAttrs rest

mutual
def serializeNode : HNode → String
  | .text s => s
  | .elem e cs =>
    "<" ++ e.name ++ serializeAttrs e.attrs ++ ">" ++ serializeForest cs
      ++ "</" ++ e.name ++ ">"
def serializeForest : List HNode → String
  | [] => ""
  | n :: ns => serializeNode n ++ serializeForest ns
end

/-! ## Tolerant HTML parser (model of BeautifulSoup with html.parser)

The real parser never raises on string input; this model is likewise a
total function.  It lowercases tag names, parses attributes, ignores
declarations, auto-closes open elements at end of input and ignores stray
closing tags. -/

inductive HtmlTok where
  | tagOpen (e : ElemData)
  | tagClose (name : String)
  | txt (s : String)

/-- Fuelled attribute scanner for the inside of a tag. -/
def parseAttrsGo : Nat → List Char → List (String × String)
  | 0, _ => []
  | fuel + 1, l =>
    let l1 := l.dropWhile isBlankChar
    match l1 with
    | [] => []
    | _ :: rest =>
      let nm := l1.takeWhile (fun c => !isBlankChar c && c ≠ '=' && c ≠ '/' && c ≠ '>')
      if nm = [] then parseAttrsGo fuel rest
      else
        let r1 := (l1.drop nm.length).dropWhile isBlankChar
        match r1 with
        | '=' :: r2 =>
          let r3 := r2.dropWhile isBlankChar
          match r3 with
          | '"' :: r4 =>
            let v := r4.takeWhile (fun c => c ≠ '"')
            (ofChars (nm.map Char.toLower), ofChars v)
              :: parseAttrsGo fuel ((r4.drop v.length).drop 1)
          | '\'' :: r4 =>
            let v := r4.takeWhile (fun c => c ≠ '\'')
            (ofChars (nm.map Char.toLower), ofChars v)
              :: parseAttrsGo fuel ((r4.drop v.length).drop 1)
          | _ =>
            let v := r3.takeWhile (fun c => !isBlankChar c)
            (ofChars (nm.map Char.toLower), ofChars v)
              :: parseAttrsGo fuel (r3.drop v.length)
        | _ =>
          (ofChars (nm.map Char.toLower), "") :: parseAttrsGo fuel r1

/-- Interpret the contents between `<` and `>` as a token. -/
def parseTag (content : List Char) : HtmlTok :=
  match content with
  | '/' :: rest =>
    .tagClose (ofChars ((rest.takeWhile (fun c => !isBlankChar c)).map Char.toLower))
  | _ =>
    let nm := content.takeWhile (fun c => !isBlankChar c && c ≠ '/' && c ≠ '>')
    .tagOpen ⟨ofChars (nm.map Char.toLower),
              parseAttrsGo (content.length + 1) (content.drop nm.length)⟩

inductive LexMode where
  | inText
  | inTag

/-- Character-by-character lexer. -/
def lexGo : List Char → LexMode → List Char → List HtmlTok
  | [], .inText, cur => if cur = [] then [] else [.txt (ofChars cur.reverse)]
  | [], .inTag, cur => [parseTag cur.reverse]
  | c :: cs, .inText, cur =>
    if c = '<' then
      if cur = [] then lexGo cs .inTag []
      else .txt (ofChars cur.reverse) :: lexGo cs .inTag []
    else lexGo cs .inText (c :: cur)
  | c :: cs, .inTag, cur =>
    if c = '>' then parseTag cur.reverse :: lexGo cs .inText []
    else lexGo cs .inTag (c :: cur)

/-- Stack-based tree builder; returns leftover stack and the reversed
accumulated sibling list. -/
def buildNodes : List HtmlTok → List (ElemData × List HNode) → List HNode →
    List (ElemData × List HNode) × List HNode
  | [], stack, acc => (stack, acc)
  | .txt s :: ts, stack, acc => buildNodes ts stack (.text s :: acc)
  | .tagOpen e :: ts, stack, acc =>
    if listPre ['!'] e.name.data then buildNodes ts stack acc
    else buildNodes ts ((e, acc) :: stack) []
  | .tagClose _ :: ts, stack, acc =>
    match stack with
    | [] => buildNodes ts [] acc
    | (e, parentAcc) :: stack2 => buildNodes ts stack2 (.elem e acc.reverse :: parentAcc)

/-- Close every element still open at end of input. -/
def unwindStack : List (ElemData × List HNode) → List HNode → List HNode
  | [], acc => acc.reverse
  | (e, parentAcc) :: stack, acc => unwindStack stack (.elem e acc.reverse :: parentAcc)

/-- Model of `BeautifulSoup(html, "html.parser")`: a total, tolerant parse. -/
def parseHtml (html : String) : List HNode :=
  let st := buildNodes (lexGo html.data .inText []) [] []
  unwindStack st.1 st.2

example :
    serializeForest (parseHtml "<div class=\"ad\"><p>hi</p></div>ok") =
      "<div class=\"ad\"><p>hi</p></div>ok" := by decide

/-! ## Embedding of src/content_filter.py

The selector stage of `ContentFilter.filter_html` (lines 170-178): for each
compiled selector, `soup.select` finds every matching element (nested
matches included) and each is decomposed; `removed_count` counts the
matches of the select call.  `pruneForest` removes every matching subtree,
`countForest` counts every matching element of the tree walked. -/

mutual
/-- Number of elements of a tree matching `s` (nested matches included),
the contribution of one selector to `removed_count`. -/
def countNode (s : Sel) : HNode → Nat
  | .text _ => 0
  | .elem e cs => (if matchesSel s e then 1 else 0) + countForest s cs
def countForest (s : Sel) : List HNode → Nat
  | [] => 0
  | n :: ns => countNode s n + countForest s ns
end

mutual
/-- Removal of every subtree whose root matches `s`; models the
`element.decompose()` loop for one selector. -/
def pruneNode (s : Sel) : HNode → Option HNode
  | .text t => some (.text t)
  | .elem e cs => if matchesSel s e then none else some (.elem e (pruneForest s cs))
def pruneForest (s : Sel) : List HNode → List HNode
  | [] => []
  | n :: ns =>
    match pruneNode s n with
    | none => pruneForest s ns
    | some m => m :: pruneForest s ns
end

/-- The selector filtering stage of `filter_html` (spec name
`applySelectors`): fold the compiled selectors over the tree, removing the
matches of each and accumulating the removal count. -/
def apply_selectors (selectors : List Sel) (doc : List HNode) : List HNode × Nat :=
  selectors.foldl (fun acc s => (pruneForest s acc.1, acc.2 + countForest s acc.1))
    (doc, 0)

/-- Judgment of `_should_remove_by_keyword(element, keyword)`
(content_filter.py lines 211-228): remove when the stripped text is shorter
than 200 characters and contains the keyword case-insensitively, or when
the keyword occurs case-insensitively in the joined class names or the id. -/
def elementClassNames : HNode → String
  | .elem e _ => strJoin " " (classesOf e)
  | .text _ => ""

def elementIdStr : HNode → String
  | .elem e _ => (getAttr e "id").getD ""
  | .text _ => ""

def should_remove_by_keyword (element : HNode) (keyword : String) : Bool :=
  let text := strStrip (getTextRaw element)
  if text.length < 200 && strIn (strLower keyword) (strLower text) then
    true
  else
    strIn (strLower keyword) (strLower (elementClassNames element)) ||
      strIn (strLower keyword) (strLower (elementIdStr element))

/-- Model of re.compile succeeding: the pattern has balanced parentheses.
A pattern such as "(" raises re.error in `_filter_by_keywords`, the
fallible step absorbed by the try/except of `filter_html`. -/
def regexBalanced : List Char → Nat → Bool
  | [], 0 => true
  | [], _ + 1 => false
  | '(' :: cs, d => regexBalanced cs (d + 1)
  | ')' :: cs, d =>
    match d with
    | 0 => false
    | d + 1 => regexBalanced cs d
  | _ :: cs, d => regexBalanced cs d

def regexOk (pat : String) : Bool := regexBalanced pat.data 0

/-- Whether a text node matching the keyword regex (case-insensitive
substring for literal patterns) occurs among the direct children, i.e.
whether the element is the `.parent` of a matched NavigableString. -/
def hasMatchingTextChild (keyword : String) : HNode → Bool
  | .text _ => false
  | .elem _ cs =>
    cs.any (fun c =>
      match c with
      | .text s => strIn (strLower keyword) (strLower s)
      | .elem _ _ => false)

/-- Element removed by the keyword pass for `keyword`: it is the parent of
a matching text node and `_should_remove_by_keyword` holds. -/
def keywordRemoves (keyword : String) (n : HNode) : Bool :=
  hasMatchingTextChild keyword n && should_remove_by_keyword n keyword

mutual
/-- Generic predicate-based subtree removal. -/
def pruneNodeP (p : HNode → Bool) : HNode → Option HNode
  | .text t => some (.text t)
  | .elem e cs =>
    if p (.elem e cs) then none else some (.elem e (pruneForestP p cs))
def pruneForestP (p : HNode → Bool) : List HNode → List HNode
  | [] => []
  | n :: ns =>
    match pruneNodeP p n with
    | none => pruneForestP p ns
    | some m => m :: pruneForestP p ns
end

/-- Model of `_filter_by_keywords(soup)` (lines 193-209): per keyword,
compile the pattern (fallible), then decompose every parent of a matching
text node that `_should_remove_by_keyword` accepts. -/
def filter_by_keywordsE (keywords : List String) (doc : List HNode) :
    Except String (List HNode) :=
  keywords.foldlM
    (fun d kw =>
      if regexOk kw then .ok (pruneForestP (keywordRemoves kw) d)
      else .error "re.error: missing closing parenthesis")
    doc

/-- Body of `filter_html` inside its try block (lines 166-187): parse,
selector filtering, keyword filtering, serialize.  An exception anywhere
gives `.error`. -/
def filter_html_body (selectors : List Sel) (keywords : List String)
    (html : String) : Except String String := do
  let doc := parseHtml html
  let pruned := apply_selectors selectors doc
  let doc2 ←
    if keywords.isEmpty then .ok pruned.1
    else filter_by_keywordsE keywords pruned.1
  .ok (serializeForest doc2)

/-- Model of `ContentFilter.filter_html` (lines 153-191): empty input is
returned unchanged before any work; any exception from the body is caught
and the original input returned. -/
def filter_html (selectors : List Sel) (keywords : List String)
    (html : String) : String :=
  if html = "" then html
  else
    match filter_html_body selectors keywords html with
    | .ok out => out
    | .error _ => html

/-- Per-line keep judgment of `filter_text` (lines 246-253): a line is
dropped exactly when some keyword occurs in it case-insensitively and its
stripped length is under 100. -/
def should_keep_line (keywords : List String) (line : String) : Bool :=
  !(keywords.any (fun kw =>
      strIn (strLower kw) (strLower line) && (strStrip line).length < 100))

/-- Model of `ContentFilter.filter_text` (lines 230-258). -/
def filter_text (keywords : List String) (text : String) : String :=
  if text = "" || keywords.isEmpty then text
  else
    strJoin "\n"
      (((splitChar '\n' text.data).map ofChars).filter (should_keep_line keywords))

example :
    filter_text ["copyright"] "body line\nCopyRight 2025\n" = "body line\n" := by decide
example : filter_html [] ["("] "<p>hi</p>" = "<p>hi</p>" := by decide
example :
    filter_html [.clsSel "ad"] [] "<div class=\"ad\">x</div><p>hi</p>" = "<p>hi</p>" := by
  decide

/-! ## Embedding of src/enhanced_navigation_extractor.py -/

/-- Attribute of an element node. -/
def attrOfN (n : HNode) (a : String) : Option String :=
  match n with
  | .elem e _ => getAttr e a
  | .text _ => none

/-- Class list of a node. -/
def classesOfN : HNode → List String
  | .elem e _ => classesOf e
  | .text _ => []

/-- Attribute list of a node. -/
def attrsOfN : HNode → List (String × String)
  | .elem e _ => e.attrs
  | .text _ => []

/-- One extracted link (the dict built at lines 104-112). -/
structure LinkEntry where
  text : String
  url : String
  href : String
  level : Nat
  parent_text : Option String
  css_classes : List String
  attrs : List (String × String)
deriving Repr, DecidableEq

/-- One valid navigation candidate (the nav_info dict of lines 87-93);
`structureKind` renders the `structure` key ("flat" or "hierarchical"). -/
structure NavInfo where
  selector : String
  html : String
  text : String
  links : List LinkEntry
  structureKind : String
deriving Repr, DecidableEq

/-- One item of the built navigation structure (lines 191-197). -/
structure NavStructureItem where
  text : String
  url : String
  level : Nat
  parent_text : Option String
  itemType : String
deriving Repr, DecidableEq

/-- The per-page result dict of `extract_navigation_from_html`
(lines 51-56). -/
structure NavigationData where
  found_navigations : List NavInfo
  primary_navigation : Option NavInfo
  all_nav_links : List LinkEntry
  navigation_structure : List NavStructureItem
deriving Repr, DecidableEq

/-- The extractor object: `__init__` stores the base URL and its netloc
(lines 20-22). -/
structure EnhancedNavigationExtractor where
  base_url : String
  domain : String
deriving Repr, DecidableEq

/-- Constructor `EnhancedNavigationExtractor(base_url)`; urlparse of the
base can itself raise. -/
def mkExtractor (base_url : String) : Except String EnhancedNavigationExtractor := do
  let p ← urlsplitE base_url ""
  .ok ⟨base_url, p.netloc⟩

/-- The priority-ordered navigation selector list (lines 25-45), each
paired with its meaning in the selector model. -/
def nav_selectors : List (String × Sel) :=
  [("nav[role=\"navigation\"]", .tagAttr "nav" "role" "navigation"),
   ("nav.main-nav", .tagCls "nav" "main-nav"),
   ("nav.primary-nav", .tagCls "nav" "primary-nav"),
   ("nav.site-nav", .tagCls "nav" "site-nav"),
   ("nav.header-nav", .tagCls "nav" "header-nav"),
   ("nav.top-nav", .tagCls "nav" "top-nav"),
   (".navbar", .clsSel "navbar"),
   (".navigation", .clsSel "navigation"),
   (".nav-menu", .clsSel "nav-menu"),
   (".main-navigation", .clsSel "main-navigation"),
   (".site-navigation", .clsSel "site-navigation"),
   (".header-navigation", .clsSel "header-navigation"),
   (".primary-navigation", .clsSel "primary-navigation"),
   ("nav", .tagSel "nav"),
   (".nav", .clsSel "nav"),
   (".menu", .clsSel "menu"),
   ("[role=\"navigation\"]", .attrEq "role" "navigation"),
   (".sidebar-nav", .clsSel "sidebar-nav"),
   (".side-nav", .clsSel "side-nav")]

/-- Model of `_is_valid_internal_url(url)` (lines 151-161): netloc equals
the stored domain, scheme is http or https, and no entry of the extension
list occurs as a substring of the lowercased URL; any parse error gives
False. -/
def is_valid_internal_url (domain url : String) : Bool :=
  match urlsplitE url "" with
  | .error _ => false
  | .ok p =>
    p.netloc == domain && (p.scheme == "http" || p.scheme == "https") &&
      !(([".pdf", ".jpg", ".png", ".gif", ".css", ".js", ".ico"] :
          List String).any (fun ext => strIn ext (strLower url)))

/-- Python `str` of a list of strings, as used on the class list at
line 127 (`str(current.get("class", []))`). -/
def pyStrList (l : List String) : String :=
  "[" ++ strJoin ", " (l.map (fun c => "\x27" ++ c ++ "\x27")) ++ "]"

/-- Whether one ancestor counts toward the level (line 127): a ul/ol/li/div
whose class list, rendered by Python str and lowercased, contains "menu". -/
def is_menu_container (n : HNode) : Bool :=
  match n with
  | .elem e _ =>
    (["ul", "ol", "li", "div"] : List String).contains e.name &&
      strIn "menu" (strLower (pyStrList (classesOf e)))
  | .text _ => false

/-- Model of `_calculate_link_level(link, nav_element)` (lines 121-131):
count the menu containers on the ancestor chain strictly between the
anchor and the navigation root (`chainWithin`, nearest first). -/
def calculate_link_level (chainWithin : List HNode) : Nat :=
  (chainWithin.filter is_menu_container).length

/-- Model of `_get_parent_text(link)` (lines 133-144): walk the full
ancestor chain; at the first li/div whose stripped text differs from the
link text and contains it, return that text with the link text removed and
stripped; otherwise keep walking; `None` when the walk ends. -/
def get_parent_text (link : HNode) : List HNode → Option String
  | [] => none
  | p :: rest =>
    if (["li", "div"] : List String).contains (nameOf p) &&
        getTextStrip p != getTextStrip link then
      let parentText := getTextStrip p
      let linkText := getTextStrip link
      if strIn linkText parentText then
        some (strStrip (strReplace parentText linkText ""))
      else get_parent_text link rest
    else get_parent_text link rest

/-- Model of `_has_nested_structure(nav_element)` (lines 146-149): the
selector `ul ul, ol ol, li li, .dropdown, .submenu, .sub-menu` run inside
the navigation root finds at least one element. -/
def has_nested_structure (nav : HNode) (navChain : List HNode) : Bool :=
  match nav with
  | .text _ => false
  | .elem _ cs =>
    (forestElems (nav :: navChain) cs).any (fun p =>
      match p.1 with
      | .elem e _ =>
        (e.name == "ul" && p.2.any (fun a => nameOf a == "ul")) ||
        (e.name == "ol" && p.2.any (fun a => nameOf a == "ol")) ||
        (e.name == "li" && p.2.any (fun a => nameOf a == "li")) ||
        (classesOf e).contains "dropdown" ||
        (classesOf e).contains "submenu" ||
        (classesOf e).contains "sub-menu"
      | .text _ => false)

/-- Anchor test for `find_all("a", href=True)`. -/
def isAnchor (n : HNode) : Bool :=
  nameOf n == "a" && (attrOfN n "href").isSome

/-- Descendant anchors of the navigation root (document order), each with
its ancestor chain strictly inside the root (nearest first). -/
def anchorsIn (nav : HNode) : List (HNode × List HNode) :=
  match nav with
  | .text _ => []
  | .elem _ cs => (forestElems [] cs).filter (fun p => isAnchor p.1)

/-- Processing of one anchor inside `_extract_nav_element_info`
(lines 97-113): skip anchors with empty href or empty text, resolve the
href (fallible, uncaught), keep the link when `_is_valid_internal_url`
accepts the resolved URL. -/
def processAnchor (domain page_url : String) (nav : HNode)
    (navChain : List HNode) (a : HNode × List HNode) :
    Except String (Option LinkEntry) :=
  let href := (attrOfN a.1 "href").getD ""
  let text := getTextStrip a.1
  if href ≠ "" && text ≠ "" then do
    let full ← urljoinE page_url href
    if is_valid_internal_url domain full then
      .ok (some
        { text := text, url := full, href := href,
          level := calculate_link_level a.2,
          parent_text := get_parent_text a.1 (a.2 ++ nav :: navChain),
          css_classes := classesOfN a.1, attrs := attrsOfN a.1 })
    else .ok none
  else .ok none

/-- One step of the link-collection loop: append the link when the anchor
is kept. -/
def anchorStep (domain page_url : String) (nav : HNode) (navChain : List HNode)
    (acc : List LinkEntry) (a : HNode × List HNode) :
    Except String (List LinkEntry) := do
  match ← processAnchor domain page_url nav navChain a with
  | some l => pure (acc ++ [l])
  | none => pure acc

/-- Model of `_extract_nav_element_info(nav_element, page_url, selector)`
(lines 85-119). -/
def extract_nav_element_info (domain page_url selectorStr : String)
    (nav : HNode) (navChain : List HNode) : Except String NavInfo := do
  let links ← (anchorsIn nav).foldlM
    (anchorStep domain page_url nav navChain)
    ([] : List LinkEntry)
  .ok { selector := selectorStr, html := serializeNode nav,
        text := getTextStrip nav, links := links,
        structureKind :=
          if has_nested_structure nav navChain then "hierarchical" else "flat" }

/-- Model of `_deduplicate_links` key: `f"{text}|{url}"` (line 169). -/
def link_key (l : LinkEntry) : String := l.text ++ "|" ++ l.url

/-- Dedup loop with the seen set made explicit (lines 165-174). -/
def dedup_go : List LinkEntry → List String → List LinkEntry
  | [], _ => []
  | l :: ls, seen =>
    if seen.contains (link_key l) then dedup_go ls seen
    else l :: dedup_go ls (link_key l :: seen)

/-- Model of `_deduplicate_links(links)` (lines 163-174). -/
def deduplicate_links (links : List LinkEntry) : List LinkEntry :=
  dedup_go links []

/-- Insertion-ordered distinct levels: the keys of the `levels` dict built
at lines 181-186. -/
def levelKeysGo : List LinkEntry → List Nat → List Nat
  | [], _ => []
  | l :: ls, seen =>
    if seen.contains l.level then levelKeysGo ls seen
    else l.level :: levelKeysGo ls (l.level :: seen)

def levelKeys (links : List LinkEntry) : List Nat := levelKeysGo links []

/-- Model of `_build_navigation_structure(links)` (lines 176-200): group by
level in encounter order, then emit groups for the sorted levels. -/
def build_navigation_structure (links : List LinkEntry) : List NavStructureItem :=
  ((List.insertionSort (· ≤ ·) (levelKeys links)).map (fun lv =>
      (links.filter (fun l => l.level == lv)).map (fun l =>
        ({ text := l.text, url := l.url, level := lv,
           parent_text := l.parent_text,
           itemType := "navigation" } : NavStructureItem)))).flatten

/-- Accumulator of the scan loop at lines 58-69. -/
structure ScanState where
  found : List NavInfo
  primary : Option NavInfo
deriving Repr, DecidableEq

/-- One matched element of the scan: keep the candidate only when it has at
least one link; the first kept candidate becomes the primary. -/
def scanStep (domain page_url : String) (selStr : String) (st : ScanState)
    (hit : HNode × List HNode) : Except String ScanState := do
  let info ← extract_nav_element_info domain page_url selStr hit.1 hit.2
  if info.links.isEmpty then .ok st
  else
    .ok { found := st.found ++ [info],
          primary :=
            match st.primary with
            | none => some info
            | some p => some p }

/-- Model of `extract_navigation_from_html(html_content, page_url)`
(lines 47-83), taking the parsed document; the `Except` threads the
uncaught urljoin failure. -/
def extract_navigation_from_html (domain : String) (doc : List HNode)
    (page_url : String) : Except String NavigationData := do
  let st ← nav_selectors.foldlM
    (fun st sel =>
      (selectWithChain sel.2 doc).foldlM (scanStep domain page_url sel.1) st)
    ({ found := [], primary := none } : ScanState)
  let all_links := st.found.foldl (fun acc nav => acc ++ nav.links) []
  let unique := deduplicate_links all_links
  .ok { found_navigations := st.found, primary_navigation := st.primary,
        all_nav_links := unique,
        navigation_structure := build_navigation_structure unique }

/-- The site-wide aggregate dict of `enhance_navigation_extraction`
(lines 247-254, with `base_url` and the raw per-page list omitted). -/
structure SiteNavigationResult where
  total_pages : Nat
  pages_with_navigation : Nat
  unique_navigation_links : List LinkEntry
  navigation_structure : List NavStructureItem
deriving Repr, DecidableEq

/-- Model of the aggregation loop of `enhance_navigation_extraction`
(lines 256-271), taking the per-page extraction results (the
`enhanced_navigation` value of each page) as input: pages contribute their
`all_nav_links` in page order when non-empty, the concatenation is
re-deduplicated, and the global structure is built from the result. -/
def enhance_navigation_aggregate (pageNavs : List NavigationData) :
    SiteNavigationResult :=
  let all := pageNavs.foldl
    (fun acc nav =>
      if nav.all_nav_links.isEmpty then acc else acc ++ nav.all_nav_links) []
  let unique := deduplicate_links all
  { total_pages := pageNavs.length,
    pages_with_navigation :=
      (pageNavs.filter (fun nav => !nav.all_nav_links.isEmpty)).length,
    unique_navigation_links := unique,
    navigation_structure := build_navigation_structure unique }

/-! ## Lemmas about `_deduplicate_links` -/

theorem bcontains_iff {α : Type} [BEq α] [LawfulBEq α] {l : List α} {a : α} :
    l.contains a = true ↔ a ∈ l := List.elem_iff

theorem bcontains_false {α : Type} [BEq α] [LawfulBEq α] {l : List α} {a : α} :
    l.contains a = false ↔ a ∉ l := by
  rw [← Bool.not_eq_true]
  exact not_congr bcontains_iff

theorem bcontains_cons_ne {α : Type} [BEq α] [LawfulBEq α] (a k : α) (seen : List α)
    (h : k ≠ a) : (a :: seen).contains k = seen.contains k := by
  rw [Bool.eq_iff_iff, bcontains_iff, bcontains_iff]
  simp [List.mem_cons, h]

theorem dedup_go_sublist : ∀ (ls : List LinkEntry) (seen : List String),
    (dedup_go ls seen).Sublist ls := by
  intro ls
  induction ls with
  | nil => intro seen; simp [dedup_go]
  | cons l rest ih =>
    intro seen
    simp only [dedup_go]
    split
    · exact (ih seen).cons l
    · exact (ih (link_key l :: seen)).cons₂ l

theorem dedup_go_filter (k : String) : ∀ (ls : List LinkEntry) (seen : List String),
    (dedup_go ls seen).filter (fun l => link_key l == k) =
      if seen.contains k then [] else (ls.filter (fun l => link_key l == k)).take 1 := by
  intro ls
  induction ls with
  | nil => intro seen; simp [dedup_go]
  | cons l rest ih =>
    intro seen
    by_cases hk : link_key l = k
    · subst hk
      cases hc : seen.contains (link_key l) with
      | true =>
        simp only [dedup_go, hc, if_true, ih, hc]
      | false =>
        simp only [dedup_go, hc]
        rw [if_neg Bool.false_ne_true, if_neg Bool.false_ne_true]
        rw [List.filter_cons_of_pos (by simp), List.filter_cons_of_pos (by simp)]
        have htail : (dedup_go rest (link_key l :: seen)).filter
            (fun m => link_key m == link_key l) = [] := by
          rw [ih]
          rw [if_pos (bcontains_iff.mpr (List.mem_cons_self _ _))]
        rw [htail]
        simp
    · have hne : (link_key l == k) = false := by simp [hk]
      cases hc : seen.contains (link_key l) with
      | true =>
        simp only [dedup_go, hc, if_true]
        rw [List.filter_cons_of_neg (by simp [hne])]
        exact ih seen
      | false =>
        simp only [dedup_go, hc]
        rw [if_neg Bool.false_ne_true]
        rw [List.filter_cons_of_neg (by simp [hne])]
        rw [List.filter_cons_of_neg (by simp [hne])]
        rw [ih]
        rw [bcontains_cons_ne _ _ _ (fun h => hk h.symm)]

theorem dedup_go_keys : ∀ (ls : List LinkEntry) (seen : List String),
    ((dedup_go ls seen).map link_key).Nodup ∧
      ∀ l ∈ dedup_go ls seen, link_key l ∉ seen := by
  intro ls
  induction ls with
  | nil => intro seen; simp [dedup_go]
  | cons l rest ih =>
    intro seen
    simp only [dedup_go]
    split
    · exact ⟨(ih seen).1, (ih seen).2⟩
    · rename_i hc
      have hmem : link_key l ∉ seen := by
        intro h
        exact hc (bcontains_iff.mpr h)
      constructor
      · simp only [List.map_cons, List.nodup_cons]
        refine ⟨?_, (ih (link_key l :: seen)).1⟩
        intro hin
        rcases List.mem_map.mp hin with ⟨m, hm, hkey⟩
        exact (ih (link_key l :: seen)).2 m hm (by simp [hkey])
      · intro m hm
        rcases List.mem_cons.mp hm with rfl | hm2
        · exact hmem
        · intro hin
          exact (ih (link_key l :: seen)).2 m hm2 (List.mem_cons_of_mem _ hin)

theorem dedup_go_id : ∀ (ls : List LinkEntry) (seen : List String),
    (ls.map link_key).Nodup → (∀ l ∈ ls, link_key l ∉ seen) →
      dedup_go ls seen = ls := by
  intro ls
  induction ls with
  | nil => intro seen _ _; simp [dedup_go]
  | cons l rest ih =>
    intro seen hnd hseen
    have hc : seen.contains (link_key l) = false :=
      bcontains_false.mpr (hseen l (List.mem_cons_self l rest))
    simp only [dedup_go, hc]
    rw [if_neg Bool.false_ne_true]
    congr 1
    apply ih
    · exact (List.nodup_cons.mp (by simpa using hnd)).2
    · intro m hm hin
      rcases List.mem_cons.mp hin with heq | hin2
      · have hnotin : link_key l ∉ rest.map link_key :=
          (List.nodup_cons.mp (by simpa using hnd)).1
        exact hnotin (heq ▸ List.mem_map_of_mem link_key hm)
      · exact hseen m (List.mem_cons_of_mem _ hm) hin2

/-- Sample entries used to witness the deduplication claims. -/
def wlinkHome : LinkEntry :=
  ⟨"Home", "https://e.com/", "/", 0, none, [], [("href", "/")]⟩

def wlinkDocs : LinkEntry :=
  ⟨"Docs", "https://e.com/docs", "/docs", 1, none, ["cls"], [("href", "/docs")]⟩

/-- C5: for every list of LinkEntry records, dedup keyed on
`text + "|" + url` (exact, case-sensitive) keeps, for each key, exactly
the first entry in input order and discards every later entry with an
identical key regardless of its other fields; when all keys are distinct
it returns every entry. -/
theorem claim_C5_dedup_first_occurrence :
    (∀ (links : List LinkEntry) (k : String),
        (deduplicate_links links).filter (fun l => link_key l == k) =
          (links.filter (fun l => link_key l == k)).take 1) ∧
      ∀ links : List LinkEntry, (links.map link_key).Nodup →
        deduplicate_links links = links := by
  constructor
  · intro links k
    rw [deduplicate_links, dedup_go_filter]
    simp
  · intro links h
    exact dedup_go_id links [] h (by simp)

theorem claim_C5_witness :
    deduplicate_links [wlinkHome, wlinkDocs] = [wlinkHome, wlinkDocs] :=
  claim_C5_dedup_first_occurrence.2 [wlinkHome, wlinkDocs] (by decide)

/-- C10: deduplication is order-preserving (its output is a subsequence of
its input) and idempotent. -/
theorem claim_C10_dedup_sublist_idempotent :
    (∀ links : List LinkEntry, (deduplicate_links links).Sublist links) ∧
      ∀ links : List LinkEntry,
        deduplicate_links (deduplicate_links links) = deduplicate_links links := by
  constructor
  · intro links
    exact dedup_go_sublist links []
  · intro links
    exact dedup_go_id _ [] (dedup_go_keys links []).1 (by simp)

/-! ## Lemmas about the selector filter engine -/

mutual
theorem hnodeRecP {P : HNode → Prop} {Q : List HNode → Prop}
    (htext : ∀ s, P (.text s))
    (helem : ∀ e cs, Q cs → P (.elem e cs))
    (hnil : Q [])
    (hcons : ∀ n ns, P n → Q ns → Q (n :: ns)) : ∀ n, P n
  | .text s => htext s
  | .elem e cs => helem e cs (hforestRecP htext helem hnil hcons cs)
theorem hforestRecP {P : HNode → Prop} {Q : List HNode → Prop}
    (htext : ∀ s, P (.text s))
    (helem : ∀ e cs, Q cs → P (.elem e cs))
    (hnil : Q [])
    (hcons : ∀ n ns, P n → Q ns → Q (n :: ns)) : ∀ f, Q f
  | [] => hnil
  | n :: ns =>
    hcons n ns (hnodeRecP htext helem hnil hcons n)
      (hforestRecP htext helem hnil hcons ns)
end

/-- Pruning with a selector leaves no element matching it. -/
theorem countForest_pruneForest_self (s : Sel) :
    ∀ f, countForest s (pruneForest s f) = 0 := by
  refine hforestRecP (P := fun n => ∀ m, pruneNode s n = some m → countNode s m = 0)
    (Q := fun f => countForest s (pruneForest s f) = 0) ?_ ?_ ?_ ?_
  · intro t m hm
    cases hm
    rfl
  · intro e cs hcs m hm
    by_cases hmatch : matchesSel s e = true
    · simp [pruneNode, hmatch] at hm
    · simp only [pruneNode, hmatch] at hm
      rw [if_neg (by simp [hmatch])] at hm
      cases hm
      simp [countNode, hmatch, hcs]
  · rfl
  · intro n ns hn hns
    simp only [pruneForest]
    cases hp : pruneNode s n with
    | none => exact hns
    | some m => simp [countForest, hn m hp, hns]

/-- Pruning with any selector never increases the match count of another. -/
theorem countForest_pruneForest_le (s t : Sel) :
    ∀ f, countForest t (pruneForest s f) ≤ countForest t f := by
  refine hforestRecP
    (P := fun n => ∀ m, pruneNode s n = some m → countNode t m ≤ countNode t n)
    (Q := fun f => countForest t (pruneForest s f) ≤ countForest t f) ?_ ?_ ?_ ?_
  · intro u m hm
    cases hm
    exact le_refl _
  · intro e cs hcs m hm
    by_cases hmatch : matchesSel s e = true
    · simp [pruneNode, hmatch] at hm
    · simp only [pruneNode, hmatch] at hm
      rw [if_neg (by simp [hmatch])] at hm
      cases hm
      simp only [countNode]
      exact Nat.add_le_add_left hcs _
  · exact le_refl _
  · intro n ns hn hns
    simp only [pruneForest]
    cases hp : pruneNode s n with
    | none =>
      simp only [countForest]
      exact le_trans hns (Nat.le_add_left _ _)
    | some m =>
      simp only [countForest]
      exact Nat.add_le_add (hn m hp) hns

/-- The tree component of `apply_selectors` is the plain fold of pruning. -/
def pruneAll (selectors : List Sel) (doc : List HNode) : List HNode :=
  selectors.foldl (fun d s => pruneForest s d) doc

theorem apply_selectors_fst : ∀ (S : List Sel) (f : List HNode) (n0 : Nat),
    (S.foldl (fun acc s => (pruneForest s acc.1, acc.2 + countForest s acc.1))
        (f, n0)).1 = pruneAll S f := by
  intro S
  induction S with
  | nil => intro f n0; rfl
  | cons s rest ih =>
    intro f n0
    simp only [List.foldl_cons, pruneAll]
    exact ih (pruneForest s f) (n0 + countForest s f)

theorem countForest_pruneAll_zero (t : Sel) :
    ∀ (S : List Sel) (f : List HNode), countForest t f = 0 →
      countForest t (pruneAll S f) = 0 := by
  intro S
  induction S with
  | nil => intro f h; exact h
  | cons s rest ih =>
    intro f h
    simp only [pruneAll, List.foldl_cons]
    exact ih (pruneForest s f)
      (Nat.le_zero.mp (h ▸ countForest_pruneForest_le s t f))

/-- After one full pass, no selector of the set matches anything. -/
theorem pruneAll_clean : ∀ (S : List Sel) (f : List HNode) (s : Sel), s ∈ S →
    countForest s (pruneAll S f) = 0 := by
  intro S
  induction S with
  | nil => intro f s h; cases h
  | cons s0 rest ih =>
    intro f s hs
    rcases List.mem_cons.mp hs with rfl | hmem
    · simp only [pruneAll, List.foldl_cons]
      exact countForest_pruneAll_zero s rest _ (countForest_pruneForest_self s f)
    · simp only [pruneAll, List.foldl_cons]
      exact ih (pruneForest s0 f) s hmem

theorem apply_selectors_count_zero :
    ∀ (S : List Sel) (f : List HNode), (∀ s ∈ S, countForest s f = 0) →
      ∀ n0, (S.foldl (fun acc s => (pruneForest s acc.1, acc.2 + countForest s acc.1))
        (f, n0)).2 = n0 := by
  intro S
  induction S with
  | nil => intro f h n0; rfl
  | cons s rest ih =>
    intro f h n0
    simp only [List.foldl_cons]
    have hzero : countForest s f = 0 := h s (List.mem_cons_self s rest)
    rw [hzero]
    have hrest : ∀ t ∈ rest, countForest t (pruneForest s f) = 0 := by
      intro t ht
      exact Nat.le_zero.mp
        (h t (List.mem_cons_of_mem s ht) ▸ countForest_pruneForest_le s t f)
    rw [Nat.add_zero]
    exact ih (pruneForest s f) hrest n0

/-- C4: selector filtering is idempotent: running `apply_selectors` on its
own cleaned output removes zero further elements.  The cleaned HTML string
is identified with the cleaned tree here; the serialize/parse round trip
between the two passes belongs to the modelled BeautifulSoup boundary. -/
theorem claim_C4_apply_selectors_idempotent :
    ∀ (S : List Sel) (html : List HNode),
      (apply_selectors S (apply_selectors S html).1).2 = 0 := by
  intro S html
  rw [apply_selectors, apply_selectors, apply_selectors_fst]
  have hclean : ∀ s ∈ S, countForest s (pruneAll S html) = 0 :=
    fun s hs => pruneAll_clean S html s hs
  exact apply_selectors_count_zero S (pruneAll S html) hclean 0

/-! ## Lemmas about the navigation scan -/

/-- Invariant of the scan state: the primary candidate is the first found
candidate, and every found candidate has at least one link. -/
def ScanInv (st : ScanState) : Prop :=
  st.primary = st.found.head? ∧ ∀ c ∈ st.found, c.links ≠ []

theorem scanStep_inv (domain page_url selStr : String) (hit : HNode × List HNode)
    (st st2 : ScanState) (hinv : ScanInv st)
    (h : scanStep domain page_url selStr st hit = .ok st2) : ScanInv st2 := by
  unfold scanStep at h
  cases hinfo : extract_nav_element_info domain page_url selStr hit.1 hit.2 with
  | error e =>
    rw [hinfo] at h
    simp [Bind.bind, Except.bind] at h
  | ok info =>
    rw [hinfo] at h
    simp only [Bind.bind, Except.bind] at h
    by_cases hempty : info.links.isEmpty = true
    · rw [if_pos hempty] at h
      cases h
      exact hinv
    · rw [if_neg hempty] at h
      cases h
      constructor
      · cases hfound : st.found with
        | nil =>
          have : st.primary = none := by rw [hinv.1, hfound]; rfl
          simp [this, hfound]
        | cons c rest =>
          have : st.primary = some c := by rw [hinv.1, hfound]; rfl
          simp [this, hfound]
      · intro c hc
        rcases List.mem_append.mp hc with hold | hnew
        · exact hinv.2 c hold
        · have : c = info := by simpa using hnew
          subst this
          intro hnil
          rw [hnil] at hempty
          exact hempty rfl

theorem foldlM_except_inv {σ α : Type} (Inv : σ → Prop) (f : σ → α → Except String σ)
    (hf : ∀ st a st2, Inv st → f st a = .ok st2 → Inv st2) :
    ∀ (xs : List α) (st st2 : σ), Inv st → xs.foldlM f st = .ok st2 → Inv st2 := by
  intro xs
  induction xs with
  | nil =>
    intro st st2 h hfold
    simp only [List.foldlM] at hfold
    cases hfold
    exact h
  | cons x rest ih =>
    intro st st2 h hfold
    simp only [List.foldlM] at hfold
    cases hx : f st x with
    | error e =>
      rw [hx] at hfold
      simp [Bind.bind, Except.bind] at hfold
    | ok st1 =>
      rw [hx] at hfold
      simp only [Bind.bind, Except.bind] at hfold
      exact ih st1 st2 (hf st x st1 h hx) hfold

/-- The document of the C6 priority scenario: a role-qualified nav and a
generic .menu block, each with a distinct valid link. -/
def c6doc : List HNode :=
  parseHtml "<nav role=\"navigation\"><a href=\"/a\">Alpha</a></nav><div class=\"menu\"><a href=\"/b\">Beta</a></div>"

/-- C6: the primary candidate is the first candidate with at least one
valid link in the priority-ordered scan of the 19 navigation selectors; a
candidate with zero valid links is never recorded, hence never primary;
and on a document holding both a role-qualified nav and a generic .menu
block the primary derives from the role-qualified nav. -/
theorem claim_C6_primary_first :
    (∀ (domain : String) (doc : List HNode) (page_url : String)
        (nd : NavigationData),
        extract_navigation_from_html domain doc page_url = .ok nd →
          nd.primary_navigation = nd.found_navigations.head? ∧
            ∀ c ∈ nd.found_navigations, c.links ≠ []) ∧
      nav_selectors.length = 19 ∧
      (extract_navigation_from_html "example.com" c6doc
          "https://example.com/").map
        (fun r => r.primary_navigation.map fun i =>
          (i.selector, i.links.map fun l => l.url)) =
        .ok (some ("nav[role=\"navigation\"]", ["https://example.com/a"])) := by
  refine ⟨?_, by rfl, by decide⟩
  intro domain doc page_url nd h
  unfold extract_navigation_from_html at h
  cases hfold : nav_selectors.foldlM
      (fun st sel =>
        (selectWithChain sel.2 doc).foldlM (scanStep domain page_url sel.1) st)
      ({ found := [], primary := none } : ScanState) with
  | error e =>
    rw [hfold] at h
    simp [Bind.bind, Except.bind] at h
  | ok st =>
    rw [hfold] at h
    simp only [Bind.bind, Except.bind] at h
    have hinv : ScanInv st := by
      refine foldlM_except_inv ScanInv _ ?_ nav_selectors
        ({ found := [], primary := none } : ScanState) st ⟨rfl, by simp⟩ hfold
      intro st0 sel st1 h0 hstep
      exact foldlM_except_inv ScanInv _
        (fun sta hit stb ha hb => scanStep_inv domain page_url sel.1 hit sta stb ha hb)
        (selectWithChain sel.2 doc) st0 st1 h0 hstep
    cases h
    exact ⟨hinv.1, hinv.2⟩

/-- Extraction result of the C6 scenario, used by the witness. -/
def c6nd : NavigationData :=
  match extract_navigation_from_html "example.com" c6doc "https://example.com/" with
  | .ok r => r
  | .error _ => ⟨[], none, [], []⟩

theorem claim_C6_witness :
    c6nd.primary_navigation = c6nd.found_navigations.head? ∧
      ∀ c ∈ c6nd.found_navigations, c.links ≠ [] :=
  claim_C6_primary_first.1 "example.com" c6doc "https://example.com/" c6nd (by decide)

/-! ## C3: the uncaught urljoin failure -/

/-- A page whose nav holds an anchor with a bracket-unbalanced absolute
href; resolving it makes urlparse raise ValueError("Invalid IPv6 URL"),
and `extract_navigation_from_html` has no handler for it. -/
def c3doc : List HNode := parseHtml "<nav><a href=\"http://[x\">Link</a></nav>"

/-- C3: the claim says extraction never lets an error past its boundary and
returns an empty result on failure; the code propagates the ValueError
raised while resolving this href, so the error reaches the caller. -/
theorem claim_C3_extraction_error_propagates :
    extract_navigation_from_html "example.com" c3doc "https://example.com/" =
      .error "Invalid IPv6 URL" := by decide

/-! ## C8: navigation end-to-end scenario -/

/-- The document of the C8 scenario. -/
def c8doc : List HNode :=
  parseHtml "<nav><a href=\"/get-started\">Get Started</a><a href=\"/models\">Models</a></nav>"

/-- C8: on page https://docs.example.com/welcome with the extractor based
at that host, the sample nav yields exactly two links resolving to
/get-started and /models under the site host, both at level 0; and in
general the level counts exactly the ul/ol/li/div ancestors strictly
between anchor and navigation root whose rendered class list contains
"menu" (the chain passed to `calculate_link_level` is that strict
in-between chain). -/
theorem claim_C8_navigation_end_to_end :
    (mkExtractor "https://docs.example.com" =
        .ok ⟨"https://docs.example.com", "docs.example.com"⟩) ∧
      ((extract_navigation_from_html "docs.example.com" c8doc
            "https://docs.example.com/welcome").map
          (fun r => r.all_nav_links.map fun l => (l.text, l.url, l.level)) =
        .ok [("Get Started", "https://docs.example.com/get-started", 0),
             ("Models", "https://docs.example.com/models", 0)]) ∧
      (∀ chain : List HNode,
        calculate_link_level chain = (chain.filter is_menu_container).length) ∧
      ∀ n : HNode, is_menu_container n = true ↔
        ((["ul", "ol", "li", "div"] : List String).contains (nameOf n) = true ∧
          strIn "menu" (strLower (pyStrList (classesOfN n))) = true) := by
  refine ⟨by decide, by decide, fun chain => rfl, ?_⟩
  intro n
  cases n with
  | text s => simp [is_menu_container, nameOf, classesOfN]
  | elem e cs =>
    simp [is_menu_container, nameOf, classesOfN, Bool.and_eq_true]

/-! ## C1: the link validity filter -/

/-- Python `s.endswith(suffix)`, used to state the path-suffix reading of
the claim. -/
def strEndsWith (s suf : String) : Bool := listPre suf.data.reverse s.data.reverse

theorem anchorStep_fold_mem (domain page_url : String) (nav : HNode)
    (navChain : List HNode) :
    ∀ (anchors : List (HNode × List HNode)) (acc links : List LinkEntry),
      anchors.foldlM (anchorStep domain page_url nav navChain) acc = .ok links →
        ∀ l, l ∈ links ↔ l ∈ acc ∨
          ∃ a ∈ anchors,
            processAnchor domain page_url nav navChain a = .ok (some l) := by
  intro anchors
  induction anchors with
  | nil =>
    intro acc links h l
    simp only [List.foldlM] at h
    cases h
    simp
  | cons a rest ih =>
    intro acc links h l
    simp only [List.foldlM] at h
    cases hp : processAnchor domain page_url nav navChain a with
    | error e =>
      rw [show anchorStep domain page_url nav navChain acc a = .error e by
        simp [anchorStep, hp, Bind.bind, Except.bind]] at h
      simp [Bind.bind, Except.bind] at h
    | ok r =>
      cases r with
      | some l0 =>
        rw [show anchorStep domain page_url nav navChain acc a = .ok (acc ++ [l0]) by
          simp [anchorStep, hp, Bind.bind, Except.bind, Pure.pure, Except.pure]] at h
        simp only [Bind.bind, Except.bind] at h
        rw [ih (acc ++ [l0]) links h l]
        constructor
        · rintro (hacc | hrest)
          · rcases List.mem_append.mp hacc with h1 | h2
            · exact Or.inl h1
            · refine Or.inr ⟨a, List.mem_cons_self _ _, ?_⟩
              have : l = l0 := by simpa using h2
              rw [this, hp]
          · rcases hrest with ⟨a2, ha2, hpa2⟩
            exact Or.inr ⟨a2, List.mem_cons_of_mem _ ha2, hpa2⟩
        · rintro (hacc | ⟨a2, ha2, hpa2⟩)
          · exact Or.inl (List.mem_append.mpr (Or.inl hacc))
          · rcases List.mem_cons.mp ha2 with rfl | ha2r
            · rw [hp] at hpa2
              have : l0 = l := by
                have := Except.ok.inj hpa2
                exact Option.some.inj this
              exact Or.inl (List.mem_append.mpr (Or.inr (by simp [this])))
            · exact Or.inr ⟨a2, ha2r, hpa2⟩
      | none =>
        rw [show anchorStep domain page_url nav navChain acc a = .ok acc by
          simp [anchorStep, hp, Bind.bind, Except.bind, Pure.pure, Except.pure]] at h
        simp only [Bind.bind, Except.bind] at h
        rw [ih acc links h l]
        constructor
        · rintro (hacc | ⟨a2, ha2, hpa2⟩)
          · exact Or.inl hacc
          · exact Or.inr ⟨a2, List.mem_cons_of_mem _ ha2, hpa2⟩
        · rintro (hacc | ⟨a2, ha2, hpa2⟩)
          · exact Or.inl hacc
          · rcases List.mem_cons.mp ha2 with rfl | ha2r
            · rw [hp] at hpa2
              cases Except.ok.inj hpa2
            · exact Or.inr ⟨a2, ha2r, hpa2⟩

/-- C1 (amended): an anchor contributes a link to the candidate iff its
href and text are non-empty, the href resolves against the page URL
without error, and `_is_valid_internal_url` accepts the resolved URL; the
validity test compares the URL netloc with the extractor base domain,
requires scheme http or https, and rejects any URL whose lowercased full
text contains one of the asset extensions as a substring (anywhere, not
only as a path suffix).  Dropped links are silently absorbed. -/
theorem claim_C1_link_validity :
    (∀ (domain page_url selStr : String) (nav : HNode) (navChain : List HNode)
        (ni : NavInfo),
        extract_nav_element_info domain page_url selStr nav navChain = .ok ni →
          ∀ l, l ∈ ni.links ↔
            ∃ a ∈ anchorsIn nav,
              processAnchor domain page_url nav navChain a = .ok (some l)) ∧
      (∀ (domain page_url : String) (nav : HNode) (navChain : List HNode)
          (a : HNode × List HNode) (r : Option LinkEntry),
          processAnchor domain page_url nav navChain a = .ok r →
            (r.isSome = true ↔
              ((attrOfN a.1 "href").getD "" ≠ "" ∧ getTextStrip a.1 ≠ "" ∧
                ∃ u, urljoinE page_url ((attrOfN a.1 "href").getD "") = .ok u ∧
                  is_valid_internal_url domain u = true))) ∧
      ∀ domain url : String, is_valid_internal_url domain url = true ↔
        ∃ p, urlsplitE url "" = .ok p ∧ p.netloc = domain ∧
          (p.scheme = "http" ∨ p.scheme = "https") ∧
          ∀ ext ∈ ([".pdf", ".jpg", ".png", ".gif", ".css", ".js", ".ico"] :
              List String),
            strIn ext (strLower url) = false := by
  refine ⟨?_, ?_, ?_⟩
  · intro domain page_url selStr nav navChain ni h l
    unfold extract_nav_element_info at h
    cases hfold : (anchorsIn nav).foldlM
        (anchorStep domain page_url nav navChain) ([] : List LinkEntry) with
    | error e =>
      rw [hfold] at h
      simp [Bind.bind, Except.bind] at h
    | ok links =>
      rw [hfold] at h
      simp only [Bind.bind, Except.bind] at h
      cases h
      simpa using anchorStep_fold_mem domain page_url nav navChain
        (anchorsIn nav) [] links hfold l
  · intro domain page_url nav navChain a r h
    unfold processAnchor at h
    by_cases hcond : ((attrOfN a.1 "href").getD "" ≠ "" &&
        getTextStrip a.1 ≠ "") = true
    · rw [if_pos hcond] at h
      cases hu : urljoinE page_url ((attrOfN a.1 "href").getD "") with
      | error e =>
        rw [hu] at h
        simp [Bind.bind, Except.bind] at h
      | ok u =>
        rw [hu] at h
        simp only [Bind.bind, Except.bind] at h
        by_cases hvalid : is_valid_internal_url domain u = true
        · rw [if_pos hvalid] at h
          cases h
          have hc2 : (attrOfN a.1 "href").getD "" ≠ "" ∧ getTextStrip a.1 ≠ "" := by
            simpa using hcond
          exact iff_of_true rfl ⟨hc2.1, hc2.2, u, rfl, hvalid⟩
        · rw [if_neg hvalid] at h
          cases h
          refine iff_of_false (by simp) ?_
          rintro ⟨-, -, u2, hu2, hv2⟩
          cases Except.ok.inj hu2
          exact hvalid hv2
    · rw [if_neg hcond] at h
      cases h
      refine iff_of_false (by simp) ?_
      rintro ⟨h1, h2, -⟩
      exact hcond (by simp [h1, h2])
  · intro domain url
    unfold is_valid_internal_url
    cases hp : urlsplitE url "" with
    | error e => simp
    | ok p =>
      simp only [Bool.and_eq_true, beq_iff_eq, Bool.or_eq_true,
        Bool.not_eq_true', List.any_eq_false]
      constructor
      · rintro ⟨⟨hnet, hscheme⟩, hext⟩
        exact ⟨p, rfl, hnet, hscheme,
          fun ext hm => Bool.eq_false_iff.mpr (hext ext hm)⟩
      · rintro ⟨p2, hp2, hnet, hscheme, hext⟩
        cases Except.ok.inj hp2
        exact ⟨⟨hnet, hscheme⟩, fun x hm => Bool.eq_false_iff.mp (hext x hm)⟩

/-- The C1 counterexample anchor: href "/a.pdf.html" resolves to a URL on
the page host with scheme https whose path ends in ".html", yet the link
is dropped because ".pdf" occurs inside the URL. -/
def c1anchor : HNode := .elem ⟨"a", [("href", "/a.pdf.html")]⟩ [.text "File"]

def c1nav : HNode := .elem ⟨"nav", []⟩ [c1anchor]

/-- C1 counterexample: every condition of the claim as stated holds for
this anchor (non-empty href and text, resolved host equals the page host,
scheme https, path ends in no listed asset extension), yet the anchor is
dropped: the candidate link list is empty. -/
theorem claim_C1_counterexample :
    processAnchor "example.com" "https://example.com/" c1nav [] (c1anchor, []) =
        .ok none ∧
      (extract_nav_element_info "example.com" "https://example.com/" "nav"
          c1nav []).map (fun ni => ni.links) = .ok [] ∧
      urljoinE "https://example.com/" "/a.pdf.html" =
        .ok "https://example.com/a.pdf.html" ∧
      urlsplitE "https://example.com/a.pdf.html" "" =
        .ok ⟨"https", "example.com", "/a.pdf.html", "", ""⟩ ∧
      (∀ ext ∈ ([".pdf", ".jpg", ".png", ".gif", ".css", ".js", ".ico"] :
          List String), strEndsWith "/a.pdf.html" ext = false) ∧
      (attrOfN c1anchor "href").getD "" = "/a.pdf.html" ∧
      getTextStrip c1anchor = "File" := by decide

/-- A kept anchor used by the C1 witness. -/
def c1wnav : HNode :=
  .elem ⟨"nav", []⟩ [.elem ⟨"a", [("href", "/ok")]⟩ [.text "Ok"]]

def c1wni : NavInfo :=
  match extract_nav_element_info "example.com" "https://example.com/" "nav"
      c1wnav [] with
  | .ok ni => ni
  | .error _ => ⟨"", "", "", [], ""⟩

def c1wlink : LinkEntry :=
  ⟨"Ok", "https://example.com/ok", "/ok", 0, none, [], [("href", "/ok")]⟩

theorem claim_C1_witness :
    c1wlink ∈ c1wni.links ↔
      ∃ a ∈ anchorsIn c1wnav,
        processAnchor "example.com" "https://example.com/" c1wnav [] a =
          .ok (some c1wlink) :=
  claim_C1_link_validity.1 "example.com" "https://example.com/" "nav" c1wnav []
    c1wni (by decide) c1wlink

/-! ## C2: the keyword length gate -/

/-- C2 (amended): a text line is kept by `filter_text` iff not (stripped
length under 100 and some keyword occurs case-insensitively); an element
whose stripped text has length at least 200 is not removed by
`_should_remove_by_keyword` PROVIDED the keyword also occurs in neither
its class names nor its id (the class/id branch can still remove it); an
element with text under 200 containing the keyword is removed. -/
theorem keyword_any_iff (keywords : List String) (line : String) :
    (keywords.any fun kw =>
        strIn (strLower kw) (strLower line) &&
          decide ((strStrip line).length < 100)) = true ↔
      ((strStrip line).length < 100 ∧
        ∃ kw ∈ keywords, strIn (strLower kw) (strLower line) = true) := by
  rw [List.any_eq_true]
  constructor
  · rintro ⟨kw, hkw, hb⟩
    rcases Bool.and_eq_true_iff.mp hb with ⟨h1, h2⟩
    exact ⟨of_decide_eq_true h2, kw, hkw, h1⟩
  · rintro ⟨hlen, kw, hkw, hin⟩
    exact ⟨kw, hkw, by simp [hin, hlen]⟩

theorem claim_C2_keyword_length_gate :
    (∀ (keywords : List String) (line : String),
        should_keep_line keywords line = true ↔
          ¬((strStrip line).length < 100 ∧
            ∃ kw ∈ keywords, strIn (strLower kw) (strLower line) = true)) ∧
      (∀ (keywords : List String) (text : String), text ≠ "" → keywords ≠ [] →
        filter_text keywords text =
          strJoin "\n" (((splitChar '\n' text.data).map ofChars).filter
            (should_keep_line keywords))) ∧
      (∀ (element : HNode) (keyword : String),
        200 ≤ (strStrip (getTextRaw element)).length →
        strIn (strLower keyword) (strLower (elementClassNames element)) = false →
        strIn (strLower keyword) (strLower (elementIdStr element)) = false →
          should_remove_by_keyword element keyword = false) ∧
      ∀ (element : HNode) (keyword : String),
        (strStrip (getTextRaw element)).length < 200 →
        strIn (strLower keyword) (strLower (strStrip (getTextRaw element))) = true →
          should_remove_by_keyword element keyword = true := by
  refine ⟨?_, ?_, ?_, ?_⟩
  · intro keywords line
    unfold should_keep_line
    rw [Bool.not_eq_true', Bool.eq_false_iff]
    exact not_congr (keyword_any_iff keywords line)
  · intro keywords text htext hkw
    unfold filter_text
    rw [if_neg (by simp [htext, hkw])]
  · intro element keyword hlen hcls hid
    unfold should_remove_by_keyword
    rw [if_neg (by simp [Nat.not_lt.mpr hlen])]
    simp [hcls, hid]
  · intro element keyword hlen hin
    unfold should_remove_by_keyword
    rw [if_pos (by simp [hlen, hin])]

/-- A long advertisement block: its stripped text is far over 200
characters and contains the keyword, and its class list also contains the
keyword. -/
def c2longText : String :=
  strJoin "" (List.replicate 6 "This block mentions sponsored content over and over again. ")

def c2element : HNode := .elem ⟨"div", [("class", "sponsored-box")]⟩ [.text c2longText]

/-- C2 counterexample: an element whose visible text has length at least
200 and contains the keyword IS removed by the keyword judgment, because
the keyword also occurs in its class attribute — refuting the claim that
such an element is never removed. -/
theorem claim_C2_counterexample :
    should_remove_by_keyword c2element "sponsored" = true ∧
      200 ≤ (strStrip (getTextRaw c2element)).length ∧
      strIn (strLower "sponsored") (strLower (strStrip (getTextRaw c2element))) =
        true := by decide

def c2short : HNode := .elem ⟨"div", []⟩ [.text "sponsored links here"]

theorem claim_C2_witness :
    should_remove_by_keyword c2short "sponsored" = true :=
  claim_C2_keyword_length_gate.2.2.2 c2short "sponsored" (by decide) (by decide)

/-! ## C7: filter_html never raises -/

theorem apply_selectors_nil : ∀ S : List Sel, apply_selectors S [] = ([], 0) := by
  intro S
  unfold apply_selectors
  induction S with
  | nil => rfl
  | cons s rest ih => exact ih

/-- C7: HTML filtering is total: when the body raises (modelled by the
`.error` branch, e.g. an invalid keyword regex), the original input is
returned unmodified; empty input takes the fast path and is returned
unchanged before any removal, and the selector stage on the parse of the
empty string removes zero elements. -/
theorem claim_C7_filter_html_never_raises :
    (∀ (selectors : List Sel) (keywords : List String) (html e : String),
        filter_html_body selectors keywords html = .error e →
          filter_html selectors keywords html = html) ∧
      (∀ (selectors : List Sel) (keywords : List String),
        filter_html selectors keywords "" = "") ∧
      ∀ selectors : List Sel,
        apply_selectors selectors (parseHtml "") = ([], 0) := by
  refine ⟨?_, ?_, ?_⟩
  · intro selectors keywords html e h
    unfold filter_html
    by_cases hh : html = ""
    · rw [if_pos hh]
    · rw [if_neg hh, h]
  · intro selectors keywords
    rfl
  · intro selectors
    rw [show parseHtml "" = [] from rfl]
    exact apply_selectors_nil selectors

theorem claim_C7_witness :
    filter_html [] ["("] "<p>hi</p>" = "<p>hi</p>" :=
  claim_C7_filter_html_never_raises.1 [] ["("] "<p>hi</p>"
    "re.error: missing closing parenthesis" (by decide)

/-! ## C9: site aggregation -/

/-- The structure item built for a link at a given level. -/
def navItemOf (lv : Nat) (l : LinkEntry) : NavStructureItem :=
  ⟨l.text, l.url, lv, l.parent_text, "navigation"⟩

theorem build_navigation_structure_eq (links : List LinkEntry) :
    build_navigation_structure links =
      ((List.insertionSort (· ≤ ·) (levelKeys links)).map (fun lv =>
        (links.filter (fun l => l.level == lv)).map (navItemOf lv))).flatten := rfl

theorem aggregate_concat : ∀ (pageNavs : List NavigationData) (acc : List LinkEntry),
    pageNavs.foldl
        (fun acc nav =>
          if nav.all_nav_links.isEmpty then acc else acc ++ nav.all_nav_links)
        acc =
      acc ++ (pageNavs.map (fun n => n.all_nav_links)).flatten := by
  intro pageNavs
  induction pageNavs with
  | nil => intro acc; simp
  | cons n rest ih =>
    intro acc
    simp only [List.foldl_cons, List.map_cons, List.flatten_cons]
    by_cases h : n.all_nav_links.isEmpty = true
    · rw [if_pos h, ih acc, List.isEmpty_iff.mp h]
      simp
    · rw [if_neg h, ih (acc ++ n.all_nav_links), List.append_assoc]

theorem levelKeysGo_mem : ∀ (links : List LinkEntry) (seen : List Nat) (lv : Nat),
    lv ∈ levelKeysGo links seen ↔
      (∃ l ∈ links, l.level = lv) ∧ lv ∉ seen := by
  intro links
  induction links with
  | nil => intro seen lv; simp [levelKeysGo]
  | cons l rest ih =>
    intro seen lv
    simp only [levelKeysGo]
    split
    · rename_i hc
      rw [ih seen lv]
      constructor
      · rintro ⟨⟨m, hm, hlv⟩, hseen⟩
        exact ⟨⟨m, List.mem_cons_of_mem _ hm, hlv⟩, hseen⟩
      · rintro ⟨⟨m, hm, hlv⟩, hseen⟩
        rcases List.mem_cons.mp hm with rfl | hm2
        · exact absurd (hlv ▸ bcontains_iff.mp hc) hseen
        · exact ⟨⟨m, hm2, hlv⟩, hseen⟩
    · rename_i hc
      have hlnot : l.level ∉ seen := fun h => hc (bcontains_iff.mpr h)
      rw [List.mem_cons, ih (l.level :: seen) lv]
      constructor
      · rintro (rfl | ⟨⟨m, hm, hlv⟩, hseen⟩)
        · exact ⟨⟨l, List.mem_cons_self _ _, rfl⟩, hlnot⟩
        · refine ⟨⟨m, List.mem_cons_of_mem _ hm, hlv⟩, ?_⟩
          intro hx
          exact hseen (List.mem_cons_of_mem _ hx)
      · rintro ⟨⟨m, hm, hlv⟩, hseen⟩
        by_cases heq : lv = l.level
        · exact Or.inl heq
        · rcases List.mem_cons.mp hm with rfl | hm2
          · exact absurd hlv.symm heq
          · refine Or.inr ⟨⟨m, hm2, hlv⟩, ?_⟩
            intro hx
            rcases List.mem_cons.mp hx with h1 | h2
            · exact heq h1
            · exact hseen h2

theorem levelKeysGo_nodup : ∀ (links : List LinkEntry) (seen : List Nat),
    (levelKeysGo links seen).Nodup ∧ ∀ lv ∈ levelKeysGo links seen, lv ∉ seen := by
  intro links
  induction links with
  | nil => intro seen; simp [levelKeysGo]
  | cons l rest ih =>
    intro seen
    simp only [levelKeysGo]
    split
    · exact ih seen
    · rename_i hc
      have hlnot : l.level ∉ seen := fun h => hc (bcontains_iff.mpr h)
      constructor
      · rw [List.nodup_cons]
        refine ⟨?_, (ih (l.level :: seen)).1⟩
        intro hin
        exact (ih (l.level :: seen)).2 l.level hin (List.mem_cons_self _ _)
      · intro lv hlv
        rcases List.mem_cons.mp hlv with rfl | h2
        · exact hlnot
        · intro hx
          exact (ih (l.level :: seen)).2 lv h2 (List.mem_cons_of_mem _ hx)

theorem group_level (links : List LinkEntry) (lv : Nat) :
    ∀ it ∈ (links.filter (fun l => l.level == lv)).map (navItemOf lv),
      it.level = lv := by
  intro it hit
  rcases List.mem_map.mp hit with ⟨l, _, rfl⟩
  rfl

theorem groups_filter (links : List LinkEntry) (lv : Nat) :
    ∀ L : List Nat, L.Nodup →
      (((L.map (fun lv2 =>
          (links.filter (fun l => l.level == lv2)).map (navItemOf lv2))).flatten).filter
        (fun it => it.level == lv)) =
        if lv ∈ L then (links.filter (fun l => l.level == lv)).map (navItemOf lv)
        else [] := by
  intro L
  induction L with
  | nil => intro _; simp
  | cons l0 rest ih =>
    intro hnd
    rcases List.nodup_cons.mp hnd with ⟨hl0, hrest⟩
    simp only [List.map_cons, List.flatten_cons, List.filter_append, ih hrest]
    by_cases heq : l0 = lv
    · subst heq
      rw [List.filter_eq_self.mpr, if_neg hl0, if_pos (List.mem_cons_self _ _)]
      · simp
      · intro it hit
        simp [group_level links l0 it hit]
    · rw [List.filter_eq_nil_iff.mpr (fun it hit => by
        rw [group_level links l0 it hit]
        simp [heq])]
      simp only [List.nil_append]
      by_cases hmem : lv ∈ rest
      · rw [if_pos hmem, if_pos (List.mem_cons_of_mem _ hmem)]
      · rw [if_neg hmem, if_neg (fun h => by
          rcases List.mem_cons.mp h with h1 | h2
          · exact heq h1.symm
          · exact hmem h2)]

theorem structure_filter_eq (links : List LinkEntry) (lv : Nat) :
    (build_navigation_structure links).filter (fun it => it.level == lv) =
      (links.filter (fun l => l.level == lv)).map (navItemOf lv) := by
  rw [build_navigation_structure_eq]
  have hnd : (List.insertionSort (· ≤ ·) (levelKeys links)).Nodup :=
    ((List.perm_insertionSort (· ≤ ·) (levelKeys links)).nodup_iff).mpr
      ((levelKeysGo_nodup links []).1)
  rw [groups_filter links lv _ hnd]
  by_cases hmem : lv ∈ List.insertionSort (· ≤ ·) (levelKeys links)
  · rw [if_pos hmem]
  · rw [if_neg hmem]
    have hnolink : ∀ l ∈ links, ¬ l.level = lv := by
      intro l hl hlv
      apply hmem
      rw [(List.perm_insertionSort (· ≤ ·) (levelKeys links)).mem_iff]
      exact (levelKeysGo_mem links [] lv).mpr ⟨⟨l, hl, hlv⟩, by simp⟩
    rw [List.filter_eq_nil_iff.mpr (by intro l hl; simp [hnolink l hl])]
    rfl

theorem structure_sorted (links : List LinkEntry) :
    List.Pairwise (fun a b => a.level ≤ b.level)
      (build_navigation_structure links) := by
  rw [build_navigation_structure_eq]
  rw [List.pairwise_flatten]
  constructor
  · intro g hg
    rcases List.mem_map.mp hg with ⟨lv, _, rfl⟩
    apply List.pairwise_of_forall_mem_list
    intro a ha b hb
    rw [group_level links lv a ha, group_level links lv b hb]
  · rw [List.pairwise_map]
    have hsorted : List.Pairwise (· ≤ ·)
        (List.insertionSort (· ≤ ·) (levelKeys links)) :=
      List.sorted_insertionSort (· ≤ ·) (levelKeys links)
    refine hsorted.imp ?_
    intro lv1 lv2 hle x hx y hy
    rw [group_level links lv1 x hx, group_level links lv2 y hy]
    exact hle

/-- C9: site aggregation deduplicates the page-ordered concatenation of
all per-page links (so no two site-wide entries share a text|url key), and
the site structure lists, for each level in ascending order, the
deduplicated links of that level in first-encounter order. -/
theorem claim_C9_site_aggregation (pageNavs : List NavigationData) :
    (enhance_navigation_aggregate pageNavs).unique_navigation_links =
        deduplicate_links ((pageNavs.map (fun n => n.all_nav_links)).flatten) ∧
      (((enhance_navigation_aggregate pageNavs).unique_navigation_links).map
          link_key).Nodup ∧
      List.Pairwise (fun a b => a.level ≤ b.level)
        (enhance_navigation_aggregate pageNavs).navigation_structure ∧
      ∀ lv : Nat,
        ((enhance_navigation_aggregate pageNavs).navigation_structure).filter
            (fun it => it.level == lv) =
          (((enhance_navigation_aggregate pageNavs).unique_navigation_links).filter
              (fun l => l.level == lv)).map (navItemOf lv) := by
  have hconcat :
      (enhance_navigation_aggregate pageNavs).unique_navigation_links =
        deduplicate_links ((pageNavs.map (fun n => n.all_nav_links)).flatten) := by
    unfold enhance_navigation_aggregate
    rw [aggregate_concat pageNavs []]
    rfl
  refine ⟨hconcat, ?_, ?_, ?_⟩
  · rw [hconcat]
    exact (dedup_go_keys _ []).1
  · show List.Pairwise _ (build_navigation_structure _)
    exact structure_sorted _
  · intro lv
    show (build_navigation_structure _).filter _ = _
    exact structure_filter_eq _ lv
